import Mathlib

/-!
Verification of the grant/tender pipeline of the Council-Grant-Finder
repository (src/app.py, src/enrich_wyndham.py, src/weekly_digest.py).

The Python sources are shallowly embedded:
* strings are Lean `String`s (lists of characters); Python's ASCII
  `str.lower` / `str.strip` / substring `in` are modelled by executable
  character-list functions below;
* Python `None` is `Option.none`; Python truthiness of strings / lists
  (`if x:`) is modelled by explicit `strTruthy` / `listTruthy` tests;
* a JSON/Python dict is modelled as a partial map `String → Option PyVal`
  (absent key = `none`; a present key holding JSON null = `some PyVal.pnull`);
* dates are integers counting days since 1970-01-01, so a Python
  `date₁ - date₂ → timedelta.days` is integer subtraction;
* Python's stable `sorted(key=k)` is `List.insertionSort` on the
  key order, which is the (unique) stable sort for that key.
-/

/-! ### Character/string helpers (Python `str` operations) -/

/-- Python's substring test `pat in hay`, on character lists:
`pat` occurs contiguously somewhere in `hay`. -/
def containsSub (pat : List Char) : List Char → Bool
  | [] => pat.isEmpty
  | c :: t => pat.isPrefixOf (c :: t) || containsSub pat t

/-- Python's `pat in hay` on strings. -/
def strContains (hay pat : String) : Bool :=
  containsSub pat.data hay.data

/-- Python's `s.endswith(suf)`. -/
def strEndsWith (s suf : String) : Bool :=
  suf.data.isSuffixOf s.data

/-- ASCII `str.lower`, as used by the sources on ASCII rule keywords. -/
def lowerStr (s : String) : String :=
  ⟨s.data.map Char.toLower⟩

/-- Python's `str.strip()`: drop whitespace from both ends. -/
def trimStr (s : String) : String :=
  ⟨((s.data.dropWhile Char.isWhitespace).reverse.dropWhile Char.isWhitespace).reverse⟩

/-- The maximal non-whitespace runs of a character list (accumulator holds
the current run reversed).  `wsTokens` below models splitting a string on
runs of whitespace (`re.split(r"\s+", s.strip())`) with empty tokens
dropped — the Python loop skips empty terms via `if term`. -/
def wsTokensAux (cur : List Char) : List Char → List (List Char)
  | [] => if cur.isEmpty then [] else [cur.reverse]
  | c :: t =>
    if Char.isWhitespace c then
      if cur.isEmpty then wsTokensAux [] t else cur.reverse :: wsTokensAux [] t
    else
      wsTokensAux (c :: cur) t

/-- The whitespace-separated terms of a string (all non-empty). -/
def wsTokens (s : String) : List String :=
  (wsTokensAux [] s.data).map (fun l => ⟨l⟩)

/-- Python `re` word characters (`\w`, ASCII). -/
def isWordChar (c : Char) : Bool :=
  c.isAlphanum || c == '_'

/-- A word boundary (`\b`) holds next to this character; `none` is the
start/end of the text. -/
def boundaryOk : Option Char → Bool
  | none => true
  | some c => !isWordChar c

/-- `w` matches at the head of `s` with a word boundary after the match. -/
def wordAt (w s : List Char) : Bool :=
  w.isPrefixOf s && boundaryOk (s.drop w.length).head?

/-- Scan `s` for an occurrence of `w` delimited by word boundaries;
`prev` is the character immediately before the current position. -/
def wordSearchAux (w : List Char) (prev : Option Char) : List Char → Bool
  | [] => boundaryOk prev && wordAt w []
  | c :: t => (boundaryOk prev && wordAt w (c :: t)) || wordSearchAux w (some c) t

/-- Case-insensitive word-boundary search: models `re.search(r"\b…\b", text,
re.I)` for a literal alternative `w` of the rule patterns. -/
def wordSearchCI (w text : String) : Bool :=
  wordSearchAux (lowerStr w).data none (lowerStr text).data

/-! ### Record Normalizer (src/app.py `_ensure_fields`, lines 72-90) -/

/-- A JSON-ish Python value as stored in a record dict.  `pnull` is
Python `None` (JSON null), distinct from an absent key. -/
inductive PyVal where
  | pnull : PyVal
  | pstr : String → PyVal
  | plist : List String → PyVal
  | pnum : Int → PyVal
deriving DecidableEq

/-- A Python dict: a partial map from keys to values (`none` = key absent). -/
def PyDict : Type := String → Option PyVal

/-- Python's `r.setdefault(k, v)`: store `v` at `k` only when `k` is absent;
a present key keeps its value, even when that value is `None`. -/
def setdefault (d : PyDict) (k : String) (v : PyVal) : PyDict :=
  fun k' => if k' = k then some ((d k).getD v) else d k'

/-- The attribute keys and typed defaults assigned by `_ensure_fields`
(src/app.py lines 73-89), in source order. -/
def OPP_FIELDS : List (String × PyVal) :=
  [("id", PyVal.pnull), ("source", PyVal.pnull), ("type", PyVal.pnull),
   ("url", PyVal.pnull), ("title", PyVal.pstr ""), ("description", PyVal.pstr ""),
   ("agency", PyVal.pnull), ("jurisdiction", PyVal.pnull), ("lga", PyVal.pnull),
   ("audience", PyVal.plist []), ("discipline", PyVal.plist []),
   ("open_date", PyVal.pnull), ("close_date", PyVal.pnull), ("status", PyVal.pnull),
   ("amount_min", PyVal.pnull), ("amount_max", PyVal.pnull), ("last_seen", PyVal.pnull)]

/-- `_ensure_fields` (src/app.py lines 72-90): apply the chain of
`setdefault` calls.  Total — never raises for any dict input. -/
def ensure_fields (d : PyDict) : PyDict :=
  OPP_FIELDS.foldl (fun acc kv => setdefault acc kv.1 kv.2) d

lemma setdefault_apply_present {d : PyDict} {k : String} (k' : String) (v : PyVal)
    (h : (d k).isSome = true) : setdefault d k' v k = d k := by
  unfold setdefault
  by_cases hk : k = k'
  · subst hk
    simp only [if_pos rfl]
    cases hdk : d k with
    | none => rw [hdk] at h; simp at h
    | some a => simp [hdk]
  · simp [hk]

lemma setdefault_apply_other {d : PyDict} {k k' : String} (v : PyVal)
    (h : k ≠ k') : setdefault d k' v k = d k := by
  unfold setdefault
  simp [h]

lemma foldl_setdefault_present (pairs : List (String × PyVal)) :
    ∀ (d : PyDict) (k : String), (d k).isSome = true →
      (pairs.foldl (fun acc kv => setdefault acc kv.1 kv.2) d) k = d k := by
  induction pairs with
  | nil => intro d k _; rfl
  | cons p ps ih =>
    intro d k h
    have h1 : setdefault d p.1 p.2 k = d k := setdefault_apply_present p.1 p.2 h
    have h2 : ((setdefault d p.1 p.2) k).isSome = true := by rw [h1]; exact h
    simpa [List.foldl_cons, h1] using ih (setdefault d p.1 p.2) k h2

lemma foldl_setdefault_other (pairs : List (String × PyVal)) :
    ∀ (d : PyDict) (k : String), k ∉ pairs.map Prod.fst →
      (pairs.foldl (fun acc kv => setdefault acc kv.1 kv.2) d) k = d k := by
  induction pairs with
  | nil => intro d k _; rfl
  | cons p ps ih =>
    intro d k h
    have hne : k ≠ p.1 := by
      intro he; exact h (by simp [he])
    have hrest : k ∉ ps.map Prod.fst := by
      intro hm; exact h (by simp [hm])
    have h1 : setdefault d p.1 p.2 k = d k := setdefault_apply_other p.2 hne
    simpa [List.foldl_cons, h1] using ih (setdefault d p.1 p.2) k (by simpa [h1] using hrest)

lemma foldl_setdefault_mem (pairs : List (String × PyVal)) :
    ∀ (d : PyDict) (k : String), k ∈ pairs.map Prod.fst →
      ((pairs.foldl (fun acc kv => setdefault acc kv.1 kv.2) d) k).isSome = true := by
  induction pairs with
  | nil => intro d k h; simp at h
  | cons p ps ih =>
    intro d k h
    by_cases hk : k ∈ ps.map Prod.fst
    · exact ih (setdefault d p.1 p.2) k hk
    · have hkp : k = p.1 := by
        rcases (by simpa using h) with h' | h'
        · exact h'
        · exact absurd (by simpa using h') hk
      have hsome : ((setdefault d p.1 p.2) k).isSome = true := by
        unfold setdefault
        rw [if_pos hkp]
        simp
      calc ((ps.foldl (fun acc kv => setdefault acc kv.1 kv.2) (setdefault d p.1 p.2)) k).isSome
          = ((setdefault d p.1 p.2) k).isSome := by
            rw [foldl_setdefault_present ps (setdefault d p.1 p.2) k hsome]
        _ = true := hsome

/-! ### The normalized Opportunity record

One structure carries every attribute the claims touch.  `Option` fields
model Python `None` (JSON null); `daysToClose` and `lastSeenDt` are the
derived fields `_days_to_close` and `_last_seen_dt` computed at load time
(src/app.py lines 124-132, src/weekly_digest.py lines 90-92): the Date
Resolver's result on `close_date` / `last_seen`, `none` when the date is
absent or unresolvable, with dates as days since 1970-01-01. -/
structure Rec where
  id : Option String := none
  source : Option String := none
  rtype : Option String := none
  url : Option String := none
  title : Option String := none
  description : Option String := none
  agency : Option String := none
  jurisdiction : Option String := none
  lga : Option String := none
  audience : Option (List String) := none
  discipline : Option (List String) := none
  open_date : Option String := none
  close_date : Option String := none
  status : Option String := none
  amount_min : Option Int := none
  amount_max : Option Int := none
  last_seen : Option String := none
  daysToClose : Option Int := none
  lastSeenDt : Option Int := none
deriving DecidableEq

/-- Python truthiness of an optional string: `None` and `""` are falsy. -/
def strTruthy : Option String → Bool
  | none => false
  | some s => s != ""

/-- Python truthiness of a list: `[]` is falsy. -/
def listTruthy : List String → Bool
  | [] => false
  | _ :: _ => true

/-- Python f-string rendering of an optional value: `f"{None}"` is `"None"`. -/
def pyShow : Option String → String
  | none => "None"
  | some s => s

/-- `_days_to_close` derivation (src/app.py lines 129-132): day difference
`close_date - today` when the close date resolved, else `None`. -/
def deriveDaysToClose (today : Int) (closeDt : Option Int) : Option Int :=
  closeDt.map (fun d => d - today)

namespace App

/-- `text_match` (src/app.py lines 152-157): every whitespace-separated
term of `q` must occur, case-insensitively, as a substring of `hay`
(`hay or ""` guards a null field; empty terms are skipped, which is what
restricting to the non-empty tokens does). -/
def text_match (hay : Option String) (q : String) : Bool :=
  (wsTokens (lowerStr (trimStr q))).all
    (fun term => strContains (lowerStr (hay.getD "")) term)

/-- Type criterion of `apply_filters` (src/app.py lines 173-175): with a
non-empty requested list, keep exactly the records whose `type` is a
member (a null `type` is not a member of a list of strings). -/
def typeOk (fts : List String) (t : Option String) : Bool :=
  !listTruthy fts ||
    (match t with
     | some s => fts.contains s
     | none => false)

/-- Jurisdiction criterion (src/app.py lines 176-178): excluded only when
the requested list is non-empty, the record's jurisdiction is truthy, and
the value is not a member. -/
def jurisOk (fj : List String) (j : Option String) : Bool :=
  !listTruthy fj || !strTruthy j || fj.contains (j.getD "")

/-- Audience criterion (src/app.py lines 179-183): some requested tag
must occur in the record's audience list (`audience or []`). -/
def audOk (fa : List String) (aud : Option (List String)) : Bool :=
  !listTruthy fa || fa.any (fun a => (aud.getD []).contains a)

/-- Discipline criterion (src/app.py lines 184-188). -/
def discOk (fd : List String) (d : Option (List String)) : Bool :=
  !listTruthy fd || fd.any (fun x => (d.getD []).contains x)

/-- Amount criterion (src/app.py lines 189-194): a record is dropped only
when a known `amount_max` is strictly below the requested minimum or a
known `amount_min` is strictly above the requested maximum. -/
def amountOk (fmin fmax mn mx : Option Int) : Bool :=
  (match fmin, mx with
   | some a, some m => !decide (m < a)
   | _, _ => true) &&
  (match fmax, mn with
   | some b, some n => !decide (b < n)
   | _, _ => true)

/-- Wyndham-only criterion (src/app.py lines 196-200): when the flag is
set, keep only records whose `lga` equals the configured LGA or whose
title/description/agency text mentions "wyndham" (f-string rendering
turns a null field into the text `None`). -/
def wyndhamOk (flag : Bool) (cfgLga : String) (r : Rec) : Bool :=
  !flag ||
    (decide (r.lga = some cfgLga) ||
      strContains
        (lowerStr (pyShow r.title ++ " " ++ pyShow r.description ++ " " ++ pyShow r.agency))
        "wyndham")

/-- Text criterion (src/app.py lines 201-203): a non-empty query must
match the title or (all of it) the description. -/
def textOk (q : String) (r : Rec) : Bool :=
  q == "" || text_match r.title q || text_match r.description q

/-- The conjunctive predicate of `apply_filters` (src/app.py lines 159-205). -/
def keepRec (fts fj fa fd : List String) (fmin fmax : Option Int)
    (q : String) (wynd : Bool) (cfgLga : String) (r : Rec) : Bool :=
  typeOk fts r.rtype && jurisOk fj r.jurisdiction && audOk fa r.audience &&
    discOk fd r.discipline && amountOk fmin fmax r.amount_min r.amount_max &&
    wyndhamOk wynd cfgLga r && textOk q r

/-- `apply_filters` (src/app.py lines 159-205): keep the records passing
all supplied criteria, preserving input order. -/
def apply_filters (rows : List Rec) (fts fj fa fd : List String)
    (fmin fmax : Option Int) (q : String) (wynd : Bool) (cfgLga : String) : List Rec :=
  rows.filter (keepRec fts fj fa fd fmin fmax q wynd cfgLga)

end App

/-! ### Temporal View Builder -/

/-- Sort key of `closing_soon`: the record's `_days_to_close` (every
sorted record has one; the default is never consulted). -/
def daysKey (r : Rec) : Int := (r.daysToClose).getD 0

/-- Ascending order on the days-to-close key. -/
def leDays (a b : Rec) : Prop := daysKey a ≤ daysKey b

instance : DecidableRel leDays := fun _ _ => Int.decLe _ _

instance : IsTotal Rec leDays := ⟨fun _ _ => Int.le_total _ _⟩

instance : IsTrans Rec leDays := ⟨fun _ _ _ h1 h2 => le_trans h1 h2⟩

/-- Membership test of the closing-soon view (src/app.py lines 229-232):
a resolvable close date whose day distance lies in `[0, days]`. -/
def closePred (days : Int) (r : Rec) : Bool :=
  match r.daysToClose with
  | some d => decide (0 ≤ d) && decide (d ≤ days)
  | none => false

namespace App

/-- `closing_soon` (src/app.py lines 227-233): filter, then stable sort
ascending by `_days_to_close` (Python's `sorted` is stable, which is
exactly `List.insertionSort` on the key order). -/
def closing_soon (rows : List Rec) (days : Int) : List Rec :=
  List.insertionSort leDays (rows.filter (closePred days))

/-- `new_this_week` (src/app.py lines 207-225): keep the records whose
truthy `last_seen` string parses to a date at most 7 days before today
(no sort; input order preserved).  The inline ISO date/datetime parsing
(lines 216-219, Date Resolver) is passed in as `parse`; a parse failure
(`none`) skips the record as the `except` branch does. -/
def new_this_week (parse : String → Option Int) (today : Int)
    (rows : List Rec) : List Rec :=
  rows.filter (fun r =>
    match r.last_seen with
    | none => false
    | some s =>
      (s != "") &&
        (match parse s with
         | some d => decide (today - d ≤ 7)
         | none => false))

end App

/-- Sort key of the digest's `new_this_week`
(`x.get("_last_seen_dt") or dt.date(1970,1,1)`): day 0 is 1970-01-01. -/
def seenKey (r : Rec) : Int := (r.lastSeenDt).getD 0

/-- Descending order on the last-seen key (Python `reverse=True`). -/
def geSeen (a b : Rec) : Prop := seenKey b ≤ seenKey a

instance : DecidableRel geSeen := fun _ _ => Int.decLe _ _

instance : IsTotal Rec geSeen := ⟨fun _ _ => Int.le_total _ _⟩

instance : IsTrans Rec geSeen := ⟨fun _ _ _ h1 h2 => le_trans h2 h1⟩

/-- Membership test of the digest's recently-observed view
(src/weekly_digest.py lines 115-117): a resolved `_last_seen_dt` (a date
object is always truthy) with `(today - d).days <= 7`. -/
def seenPred (today : Int) (r : Rec) : Bool :=
  match r.lastSeenDt with
  | some d => decide (today - d ≤ 7)
  | none => false

namespace Digest

/-- `new_this_week` (src/weekly_digest.py lines 111-119): filter, then
stable sort newest-first by `_last_seen_dt` (Python stable `sorted` with
`reverse=True`). -/
def new_this_week (today : Int) (rows : List Rec) : List Rec :=
  List.insertionSort geSeen (rows.filter (seenPred today))

end Digest

/-! ### Rule-Based Classifier (src/enrich_wyndham.py) -/

/-- `AUDIENCE_RULES` (src/enrich_wyndham.py lines 5-10).  Each regex
`\b(alt|…)\b` with `re.I` is expanded into its list of literal word
alternatives (`not[- ]?for[- ]?profit` into its nine separator variants),
matched by the case-insensitive word-boundary search `wordSearchCI`. -/
def AUDIENCE_RULES : List (String × List String) :=
  [("community",
    ["community", "club",
     "notforprofit", "notfor-profit", "notfor profit",
     "not-forprofit", "not-for-profit", "not-for profit",
     "not forprofit", "not for-profit", "not for profit",
     "nfp", "volunteer", "arts", "sport"]),
   ("business",
    ["business", "sme", "startup", "company",
     "commercialisation", "commercialization"]),
   ("students",
    ["student", "scholarship", "undergrad", "postgrad", "hdr", "phd"]),
   ("research",
    ["research", "r&d", "fellowship", "grant round", "arc", "nhmrc"])]

/-- `DISC_RULES` (src/enrich_wyndham.py lines 12-18), expanded the same
way (`arts?` into `art`/`arts`). -/
def DISC_RULES : List (String × List String) :=
  [("health", ["health", "medical", "hospital", "clinic", "nhmrc"]),
   ("engineering", ["engineer", "infrastructure", "transport", "construction"]),
   ("environment",
    ["environment", "sustainab", "recycl", "waste", "emission", "energy"]),
   ("arts", ["art", "arts", "creative", "culture"]),
   ("sport", ["sport", "recreation"])]

/-- `re.search(pat, blob, re.I)` for a rule pattern: some literal
alternative occurs in the text between word boundaries. -/
def ruleMatch (variants : List String) (blob : String) : Bool :=
  variants.any (fun w => wordSearchCI w blob)

/-- The tags of a rule table whose pattern matches the text — exactly the
tags the classification loops add (src/enrich_wyndham.py lines 69-71 and
76-78). -/
def matchedTags (rules : List (String × List String)) (blob : String) : List String :=
  (rules.filter (fun p => ruleMatch p.2 blob)).map Prod.fst

/-- Ordering of tag names used by Python's `sorted`. -/
def strLe (a b : String) : Prop := a ≤ b

instance : DecidableRel strLe := fun a b => inferInstanceAs (Decidable (a ≤ b))

instance : IsTotal String strLe := ⟨fun a b => le_total a b⟩

instance : IsTrans String strLe := ⟨fun _ _ _ h1 h2 => le_trans h1 h2⟩

instance : IsAntisymm String strLe := ⟨fun _ _ h1 h2 => le_antisymm h1 h2⟩

/-- Python's `sorted(set(l))`: the strictly increasing enumeration of the
distinct elements of `l`. -/
def canon (l : List String) : List String :=
  List.insertionSort strLe l.dedup

/-- `ensure_list` (src/enrich_wyndham.py lines 47-50) on an optional
list field: `None` becomes `[]`.  (The scalar branch `[x]` cannot arise
for the list-typed fields of the record model.) -/
def ensure_list : Option (List String) → List String
  | none => []
  | some l => l

/-- `mentions_wyndham` (src/enrich_wyndham.py lines 44-45). -/
def mentions_wyndham (text : String) : Bool :=
  strContains (lowerStr text) "wyndham"

/-- The remainder of a character list after the first occurrence of the
separator `sep`, or `none` when `sep` does not occur. -/
def dropThroughSep (sep : List Char) : List Char → Option (List Char)
  | [] => none
  | c :: t =>
    if sep.isPrefixOf (c :: t) then some ((c :: t).drop sep.length)
    else dropThroughSep sep t

/-- The network-location component of an absolute URL, as
`urllib.parse.urlparse(url).netloc` extracts it: the part after `"://"`
up to the next `/`, `?` or `#` (empty when the URL has no `"://"`). -/
def netlocOf (url : String) : String :=
  match dropThroughSep "://".data url.data with
  | some rest => ⟨rest.takeWhile (fun c => c != '/' && c != '?' && c != '#')⟩
  | none => ""

/-- `guess_jurisdiction` (src/enrich_wyndham.py lines 20-27): ordered
substring/suffix rules over the (lowered) URL host, first match wins,
no match leaves the jurisdiction unset. -/
def guess_jurisdiction (netloc : String) : Option String :=
  if strContains netloc "grants.gov.au" || strContains netloc "business.gov.au" ||
      strContains netloc "austender" then
    some "Commonwealth"
  else if strEndsWith netloc ".vic.gov.au" || strContains netloc "business.vic.gov.au" then
    some "VIC"
  else if strContains netloc "wyndham.vic.gov.au" then
    some "VIC"
  else
    none

/-- The tender keyword/acronym alternatives of the pattern
`tender|atm|rft|rfq|rfp|contract` (src/enrich_wyndham.py line 30). -/
def TENDER_KEYS : List String :=
  ["tender", "atm", "rft", "rfq", "rfp", "contract"]

/-- `guess_type` (src/enrich_wyndham.py lines 29-32): `tender` when the
URL matches the keyword pattern anywhere (case-insensitive substring
search, no word boundaries) or the combined title+description text
matches `\btender\b`; otherwise `grant`. -/
def guess_type (url : String) (title_desc : String) : String :=
  if TENDER_KEYS.any (fun k => strContains (lowerStr url) k) ||
      wordSearchCI "tender" title_desc then
    "tender"
  else
    "grant"

/-- The combined classification text `f"{title} {desc}"` of
`enrich_record` (src/enrich_wyndham.py lines 53-56), with both fields
null-guarded and stripped. -/
def blobOf (r : Rec) : String :=
  trimStr (r.title.getD "") ++ " " ++ trimStr (r.description.getD "")

/-- `enrich_record` (src/enrich_wyndham.py lines 52-90).  Two external
dependencies are passed as parameters rather than re-implemented:
`findClose` is `find_close_date` (lines 34-42), whose output feeds the
third-party `dateutil` parser, and `todayIso` is `dt.date.today()`
rendered as an ISO string (line 87).  Everything else follows the source:
a falsy (null or empty) singular field is filled by inference, a truthy
one is kept; `audience`/`discipline` become `sorted(set(existing) ∪
matched-tags)`; all remaining fields are returned unchanged. -/
def enrich_record (findClose : String → Option String) (todayIso : String)
    (default_lga : String) (r : Rec) : Rec :=
  let url := trimStr (r.url.getD "")
  let blob := blobOf r
  let netloc := lowerStr (netlocOf url)
  { r with
    rtype := if strTruthy r.rtype then r.rtype else some (guess_type url blob)
    jurisdiction :=
      if strTruthy r.jurisdiction then r.jurisdiction else guess_jurisdiction netloc
    lga :=
      if !strTruthy r.lga &&
          (strContains netloc "wyndham.vic.gov.au" || mentions_wyndham blob) then
        some default_lga
      else
        r.lga
    audience := some (canon (ensure_list r.audience ++ matchedTags AUDIENCE_RULES blob))
    discipline := some (canon (ensure_list r.discipline ++ matchedTags DISC_RULES blob))
    close_date := if strTruthy r.close_date then r.close_date else findClose blob
    last_seen := if strTruthy r.last_seen then r.last_seen else some todayIso }

/-! ### Spec-side predicates, for refinement comparison only -/

/-- Modelled from the spec: the Filter Engine text criterion as claim C1
words it — every term of the query must occur case-insensitively in the
title **or**, independently, in the description, so different terms may
be found in different fields. -/
def specTextKeep (r : Rec) (q : String) : Bool :=
  (wsTokens (lowerStr (trimStr q))).all
    (fun term =>
      strContains (lowerStr (r.title.getD "")) term ||
        strContains (lowerStr (r.description.getD "")) term)

/-- Modelled from the spec: the listing-type rule as claim C8 words it —
`tender` when the URL **or** the combined text matches the keyword
pattern `tender|atm|rft|rfq|rfp|contract` case-insensitively. -/
def specTenderPred (url text : String) : Bool :=
  TENDER_KEYS.any (fun k => strContains (lowerStr url) k) ||
    TENDER_KEYS.any (fun k => strContains (lowerStr text) k)

/-! ### Claim theorems -/

/-- Claim C10: the Normalizer assigns a typed default only to keys absent
from the input mapping; a present key keeps its value unchanged even when
that value is null (an input with a null title still exposes null, not the
empty-string default); unrecognized extra keys pass through untouched; and
(being a total function) it never raises — afterwards every attribute key
is present, but its value is not guaranteed non-null. -/
theorem C10_normalizer_only_fills_absent_keys :
    (∀ (d : PyDict) (k : String), (d k).isSome = true → ensure_fields d k = d k) ∧
    (∀ (d : PyDict) (k : String), k ∈ OPP_FIELDS.map Prod.fst →
      (ensure_fields d k).isSome = true) ∧
    (∀ (d : PyDict) (k : String), k ∉ OPP_FIELDS.map Prod.fst → ensure_fields d k = d k) ∧
    (∀ d : PyDict, d "title" = some PyVal.pnull →
      ensure_fields d "title" = some PyVal.pnull) := by
  refine ⟨fun d k h => foldl_setdefault_present OPP_FIELDS d k h,
    fun d k h => foldl_setdefault_mem OPP_FIELDS d k h,
    fun d k h => foldl_setdefault_other OPP_FIELDS d k h,
    fun d h => ?_⟩
  have hs : (d "title").isSome = true := by rw [h]; rfl
  rw [show ensure_fields d "title" = d "title" from
    foldl_setdefault_present OPP_FIELDS d "title" hs, h]

/-- A concrete dict: null title, one unrecognized key, all else absent. -/
def d0 : PyDict := fun k =>
  if k = "title" then some PyVal.pnull
  else if k = "extra" then some (PyVal.pstr "x") else none

/-- Witness for C10 at a concrete dict. -/
theorem C10_witness :
    ensure_fields d0 "title" = d0 "title" ∧
    (ensure_fields d0 "id").isSome = true ∧
    ensure_fields d0 "extra" = d0 "extra" ∧
    ensure_fields d0 "title" = some PyVal.pnull :=
  ⟨C10_normalizer_only_fills_absent_keys.1 d0 "title" (by decide),
   C10_normalizer_only_fills_absent_keys.2.1 d0 "id" (by decide),
   C10_normalizer_only_fills_absent_keys.2.2.1 d0 "extra" (by decide),
   C10_normalizer_only_fills_absent_keys.2.2.2 d0 (by decide)⟩

/-- Claim C5: the amount-range criterion excludes a record exactly when a
known `amount_max` is strictly below the requested minimum or a known
`amount_min` is strictly above the requested maximum; a record with both
amount bounds null passes for every requested range; and with only the
amount criterion supplied, `apply_filters` keeps precisely the records
passing it. -/
theorem C5_amount_benefit_of_the_doubt :
    (∀ fmin fmax mn mx : Option Int,
      App.amountOk fmin fmax mn mx = false ↔
        ((∃ a m, fmin = some a ∧ mx = some m ∧ m < a) ∨
          (∃ b n, fmax = some b ∧ mn = some n ∧ b < n))) ∧
    (∀ fmin fmax : Option Int, App.amountOk fmin fmax none none = true) ∧
    (∀ (rows : List Rec) (fmin fmax : Option Int) (cfg : String),
      App.apply_filters rows [] [] [] [] fmin fmax "" false cfg =
        rows.filter (fun r => App.amountOk fmin fmax r.amount_min r.amount_max)) := by
  refine ⟨fun fmin fmax mn mx => ?_, fun fmin fmax => ?_, fun rows fmin fmax cfg => ?_⟩
  · unfold App.amountOk
    cases fmin <;> cases fmax <;> cases mn <;> cases mx
    all_goals simp
    all_goals omega
  · unfold App.amountOk
    cases fmin <;> cases fmax <;> simp
  · unfold App.apply_filters
    apply List.filter_congr
    intro r _
    simp [App.keepRec, App.typeOk, App.jurisOk, App.audOk, App.discOk, App.wyndhamOk,
      App.textOk, listTruthy]

/-- Claim C6: with a non-empty requested jurisdiction set, a record whose
jurisdiction is unset (null or empty — falsy in the source's membership
guard) always passes the jurisdiction criterion, and a record with a set
(non-empty) jurisdiction passes exactly when the value is a member of the
requested set; with only the jurisdiction criterion supplied,
`apply_filters` keeps precisely the records passing it. -/
theorem C6_jurisdiction_unset_passes :
    (∀ fj : List String, fj ≠ [] →
      App.jurisOk fj none = true ∧
      (∀ s : String, s ≠ "" → (App.jurisOk fj (some s) = true ↔ s ∈ fj))) ∧
    (∀ (rows : List Rec) (fj : List String) (cfg : String),
      App.apply_filters rows [] fj [] [] none none "" false cfg =
        rows.filter (fun r => App.jurisOk fj r.jurisdiction)) := by
  constructor
  · intro fj hfj
    constructor
    · simp [App.jurisOk, strTruthy]
    · intro s hs
      cases fj with
      | nil => exact absurd rfl hfj
      | cons a l => simp [App.jurisOk, listTruthy, strTruthy, hs]
  · intro rows fj cfg
    unfold App.apply_filters
    apply List.filter_congr
    intro r _
    simp [App.keepRec, App.typeOk, App.audOk, App.discOk, App.amountOk, App.wyndhamOk,
      App.textOk, listTruthy]

/-- Witness for C6 at concrete inputs. -/
theorem C6_witness :
    App.jurisOk ["VIC"] none = true ∧
    (App.jurisOk ["VIC"] (some "NSW") = true ↔ "NSW" ∈ ["VIC"]) ∧
    (App.jurisOk ["VIC"] (some "VIC") = true ↔ "VIC" ∈ ["VIC"]) :=
  ⟨(C6_jurisdiction_unset_passes.1 ["VIC"] (by decide)).1,
   (C6_jurisdiction_unset_passes.1 ["VIC"] (by decide)).2 "NSW" (by decide),
   (C6_jurisdiction_unset_passes.1 ["VIC"] (by decide)).2 "VIC" (by decide)⟩

/-- Claim C7: jurisdiction inference returns `Commonwealth` for every
host containing `grants.gov.au`, `business.gov.au` or `austender`; `VIC`
for every host ending `.vic.gov.au` (the Commonwealth rule being first in
the ordered table, first match wins); only a host matching no rule of the
table leaves the jurisdiction unset; and the two URL examples resolve as
claimed (`https://business.vic.gov.au/x` to VIC,
`https://www.grants.gov.au/go/list` to Commonwealth). -/
theorem C7_jurisdiction_inference_rules :
    (∀ host : String,
      (strContains host "grants.gov.au" = true ∨ strContains host "business.gov.au" = true ∨
        strContains host "austender" = true) →
      guess_jurisdiction host = some "Commonwealth") ∧
    (∀ host : String, strEndsWith host ".vic.gov.au" = true →
      strContains host "grants.gov.au" = false → strContains host "business.gov.au" = false →
      strContains host "austender" = false →
      guess_jurisdiction host = some "VIC") ∧
    (∀ host : String,
      guess_jurisdiction host = none ↔
        (strContains host "grants.gov.au" = false ∧ strContains host "business.gov.au" = false ∧
          strContains host "austender" = false ∧ strEndsWith host ".vic.gov.au" = false ∧
          strContains host "business.vic.gov.au" = false ∧
          strContains host "wyndham.vic.gov.au" = false)) ∧
    guess_jurisdiction (lowerStr (netlocOf "https://business.vic.gov.au/x")) = some "VIC" ∧
    guess_jurisdiction (lowerStr (netlocOf "https://www.grants.gov.au/go/list")) =
      some "Commonwealth" := by
  refine ⟨fun host h => ?_, fun host h1 h2 h3 h4 => ?_, fun host => ?_, by decide, by decide⟩
  · unfold guess_jurisdiction
    rcases h with h | h | h <;> simp [h]
  · unfold guess_jurisdiction
    simp [h1, h2, h3, h4]
  · unfold guess_jurisdiction
    cases h1 : strContains host "grants.gov.au" <;>
      cases h2 : strContains host "business.gov.au" <;>
      cases h3 : strContains host "austender" <;>
      cases h4 : strEndsWith host ".vic.gov.au" <;>
      cases h5 : strContains host "business.vic.gov.au" <;>
      cases h6 : strContains host "wyndham.vic.gov.au" <;>
      simp [h1, h2, h3, h4, h5, h6]

/-- Witness for C7 at concrete hosts. -/
theorem C7_witness :
    guess_jurisdiction "www.grants.gov.au" = some "Commonwealth" ∧
    guess_jurisdiction "business.vic.gov.au" = some "VIC" :=
  ⟨C7_jurisdiction_inference_rules.1 "www.grants.gov.au" (Or.inl (by decide)),
   C7_jurisdiction_inference_rules.2.1 "business.vic.gov.au" (by decide) (by decide)
     (by decide) (by decide)⟩

/-- Counterexample to claim C8: a record whose combined title+description
text contains the keyword `contract` (which matches the claimed pattern
`tender|atm|rft|rfq|rfp|contract`) but whose URL is clean is classified
`grant`, not `tender` — the source applies the full keyword pattern only
to the URL and matches the text against `\btender\b` alone. -/
theorem C8_counterexample :
    specTenderPred "" "contract work" = true ∧
    guess_type "" "contract work" = "grant" := by
  constructor
  · decide
  · decide

/-- Claim C8 as amended: listing-type classification is binary and total
(`tender` or `grant`, never unknown); a record is `tender` exactly when
its URL matches `tender|atm|rft|rfq|rfp|contract` case-insensitively or
its combined title+description text matches `\btender\b`
case-insensitively, and `grant` otherwise; a URL containing `/rft-12345`
yields `tender` and the record titled "Community Grants Round 2" with no
tender keywords yields `grant`. -/
theorem C8_type_binary_with_url_keywords :
    (∀ url text : String, guess_type url text = "tender" ∨ guess_type url text = "grant") ∧
    (∀ url text : String,
      guess_type url text = "tender" ↔
        (TENDER_KEYS.any (fun k => strContains (lowerStr url) k) = true ∨
          wordSearchCI "tender" text = true)) ∧
    guess_type "https://example.gov.au/rft-12345" "" = "tender" ∧
    guess_type "" "Community Grants Round 2" = "grant" := by
  refine ⟨fun url text => ?_, fun url text => ?_, by decide, by decide⟩
  · unfold guess_type
    split_ifs <;> simp
  · unfold guess_type
    cases hu : TENDER_KEYS.any (fun k => strContains (lowerStr url) k) <;>
      cases ht : wordSearchCI "tender" text <;>
      simp [hu, ht]

/-- A record whose title holds one query term and whose description holds
the other. -/
def recHG : Rec := { title := some "health", description := some "grant" }

/-- Counterexample to claim C1: for the record with title "health" and
description "grant" and the query "health grant", every term occurs in
the title or, independently, in the description (the claimed criterion
holds), yet `apply_filters` with only the text criterion drops the
record — the source requires all terms to be found in one and the same
field. -/
theorem C1_counterexample :
    specTextKeep recHG "health grant" = true ∧
    App.apply_filters [recHG] [] [] [] [] none none "health grant" false "Wyndham" = [] := by
  constructor
  · decide
  · decide

/-- Claim C1 as amended: for every record and non-empty query, the text
criterion keeps the record if and only if every whitespace-separated term
of the query occurs case-insensitively as a substring of the title, or
every term occurs as a substring of the description — all terms must be
found in the same field, not split across the two. -/
theorem C1_text_terms_single_field :
    (∀ (rows : List Rec) (r : Rec) (q cfg : String), q ≠ "" →
      (r ∈ App.apply_filters rows [] [] [] [] none none q false cfg ↔
        r ∈ rows ∧
          (App.text_match r.title q = true ∨ App.text_match r.description q = true))) ∧
    (∀ (hay : Option String) (q : String),
      App.text_match hay q = true ↔
        ∀ term ∈ wsTokens (lowerStr (trimStr q)),
          strContains (lowerStr (hay.getD "")) term = true) := by
  constructor
  · intro rows r q cfg hq
    unfold App.apply_filters
    rw [List.mem_filter]
    have hqe : (q == "") = false := by simp [hq]
    simp [App.keepRec, App.typeOk, App.jurisOk, App.audOk, App.discOk, App.amountOk,
      App.wyndhamOk, App.textOk, listTruthy, hqe]
  · intro hay q
    unfold App.text_match
    rw [List.all_eq_true]

/-- Witness for C1's amended theorem at concrete inputs. -/
theorem C1_witness :
    (recHG ∈ App.apply_filters [recHG] [] [] [] [] none none "health" false "Wyndham" ↔
      recHG ∈ [recHG] ∧
        (App.text_match recHG.title "health" = true ∨
          App.text_match recHG.description "health" = true)) :=
  C1_text_terms_single_field.1 [recHG] recHG "health" "Wyndham" (by decide)

/-- Claim C3: for every collection and window size, the closing-soon view
contains exactly the records whose resolved close date gives
`0 ≤ days_to_close ≤ window_days` (it is a permutation of the filtered
input), is sorted ascending by `days_to_close`, and records whose close
date did not resolve (`_days_to_close` is null — an absent or
unresolvable `close_date`) never appear, regardless of window size. -/
theorem C3_closing_soon_window_and_sort :
    (∀ (rows : List Rec) (days : Int) (r : Rec),
      r ∈ App.closing_soon rows days ↔
        r ∈ rows ∧ ∃ d, r.daysToClose = some d ∧ 0 ≤ d ∧ d ≤ days) ∧
    (∀ (rows : List Rec) (days : Int),
      List.Perm (App.closing_soon rows days) (rows.filter (closePred days))) ∧
    (∀ (rows : List Rec) (days : Int), List.Sorted leDays (App.closing_soon rows days)) ∧
    (∀ (rows : List Rec) (days : Int) (r : Rec), r.daysToClose = none →
      r ∉ App.closing_soon rows days) := by
  have hmem : ∀ (rows : List Rec) (days : Int) (r : Rec),
      r ∈ App.closing_soon rows days ↔
        r ∈ rows ∧ ∃ d, r.daysToClose = some d ∧ 0 ≤ d ∧ d ≤ days := by
    intro rows days r
    unfold App.closing_soon
    rw [List.mem_insertionSort, List.mem_filter]
    unfold closePred
    cases hd : r.daysToClose with
    | none => simp
    | some d => simp [hd]
  refine ⟨hmem, fun rows days => List.perm_insertionSort leDays _,
    fun rows days => List.sorted_insertionSort leDays _, fun rows days r hr hmem' => ?_⟩
  rcases ((hmem rows days r).mp hmem').2 with ⟨d, hd, _⟩
  rw [hr] at hd
  exact Option.noConfusion hd

/-- A record with no resolvable close date. -/
def recNoClose : Rec := { title := some "x" }

/-- Witness for C3 at concrete inputs. -/
theorem C3_witness :
    (recNoClose ∈ App.closing_soon [recNoClose] 14 ↔
      recNoClose ∈ [recNoClose] ∧
        ∃ d, recNoClose.daysToClose = some d ∧ 0 ≤ d ∧ d ≤ 14) ∧
    recNoClose ∉ App.closing_soon [recNoClose] 14 :=
  ⟨C3_closing_soon_window_and_sort.1 [recNoClose] 14 recNoClose,
   C3_closing_soon_window_and_sort.2.2.2 [recNoClose] 14 recNoClose rfl⟩

/-- A record whose `last_seen` resolved to one day in the future. -/
def recFuture : Rec := { lastSeenDt := some 1 }

/-- Counterexample to claim C4: with today = day 0, a record whose
`last_seen` resolved to day 1 (a future date, outside the claimed
inclusive window `[today − 7, today]`) nonetheless appears in the
recently-observed view — the source checks only `(today - d).days <= 7`,
with no lower bound on the difference. -/
theorem C4_counterexample :
    recFuture ∈ Digest.new_this_week 0 [recFuture] ∧
    recFuture.lastSeenDt = some 1 ∧
    ¬((0 : Int) - 7 ≤ 1 ∧ 1 ≤ 0) := by
  refine ⟨?_, rfl, by omega⟩
  decide

/-- Claim C4 as amended: the recently-observed view contains exactly the
records whose `last_seen` resolved to a date `d` with
`today − d ≤ 7` — the window is `[today − 7, ∞)`: a record seen exactly
7 days before today is included, one seen 8 days before is excluded, and
a future-dated `last_seen` is also included; unparsable or absent
`last_seen` excludes the record.  The digest's view is sorted
most-recently-seen first (stable descending sort on the last-seen key);
the app's view applies the same inclusion test to the raw `last_seen`
string (via the Date Resolver `parse`) and preserves input order. -/
theorem C4_recent_window_has_no_upper_bound :
    (∀ (today : Int) (rows : List Rec) (r : Rec),
      r ∈ Digest.new_this_week today rows ↔
        r ∈ rows ∧ ∃ d, r.lastSeenDt = some d ∧ today - d ≤ 7) ∧
    (∀ (today : Int) (rows : List Rec),
      List.Perm (Digest.new_this_week today rows) (rows.filter (seenPred today))) ∧
    (∀ (today : Int) (rows : List Rec),
      List.Sorted geSeen (Digest.new_this_week today rows)) ∧
    (∀ (parse : String → Option Int) (today : Int) (rows : List Rec) (r : Rec),
      r ∈ App.new_this_week parse today rows ↔
        r ∈ rows ∧ ∃ s, r.last_seen = some s ∧ s ≠ "" ∧
          ∃ d, parse s = some d ∧ today - d ≤ 7) ∧
    (∀ (parse : String → Option Int) (today : Int) (rows : List Rec),
      (App.new_this_week parse today rows).Sublist rows) := by
  refine ⟨fun today rows r => ?_, fun today rows => List.perm_insertionSort geSeen _,
    fun today rows => List.sorted_insertionSort geSeen _,
    fun parse today rows r => ?_, fun parse today rows => List.filter_sublist rows⟩
  · unfold Digest.new_this_week
    rw [List.mem_insertionSort, List.mem_filter]
    unfold seenPred
    cases hd : r.lastSeenDt with
    | none => simp
    | some d => simp [hd]
  · unfold App.new_this_week
    rw [List.mem_filter]
    cases hs : r.last_seen with
    | none => simp
    | some s =>
      cases hp : parse s with
      | none => simp [hs, hp]
      | some d => simp [hs, hp]

lemma toFinset_canon (l : List String) : (canon l).toFinset = l.toFinset := by
  unfold canon
  rw [List.toFinset_eq_of_perm _ _ (List.perm_insertionSort strLe l.dedup)]
  exact List.toFinset.ext (fun x => List.mem_dedup)

lemma canon_congr {l1 l2 : List String} (h : l1.toFinset = l2.toFinset) :
    canon l1 = canon l2 := by
  unfold canon
  have hp := List.toFinset_eq_iff_perm_dedup.mp h
  exact List.eq_of_perm_of_sorted (r := strLe)
    (((List.perm_insertionSort strLe l1.dedup).trans hp).trans
      (List.perm_insertionSort strLe l2.dedup).symm)
    (List.sorted_insertionSort strLe _) (List.sorted_insertionSort strLe _)

lemma enrich_audience_eq (fc : String → Option String) (ti lga : String) (r : Rec) :
    (enrich_record fc ti lga r).audience =
      some (canon (ensure_list r.audience ++ matchedTags AUDIENCE_RULES (blobOf r))) := rfl

lemma enrich_discipline_eq (fc : String → Option String) (ti lga : String) (r : Rec) :
    (enrich_record fc ti lga r).discipline =
      some (canon (ensure_list r.discipline ++ matchedTags DISC_RULES (blobOf r))) := rfl

lemma blobOf_enrich (fc : String → Option String) (ti lga : String) (r : Rec) :
    blobOf (enrich_record fc ti lga r) = blobOf r := rfl

lemma canon_append_canon (E M : List String) :
    canon (canon (E ++ M) ++ M) = canon (E ++ M) := by
  apply canon_congr
  simp [List.toFinset_append, toFinset_canon, Finset.union_assoc]

/-- Claim C2: classification is idempotent on tag sets — enriching twice
yields the same `audience` and `discipline` values (even as sorted lists)
as enriching once, and the enriched tag set equals the union of the
pre-existing tags with exactly the tags of the rule table whose pattern
matches the concatenated title+description text. -/
theorem C2_classifier_idempotent :
    ∀ (fc : String → Option String) (ti lga : String) (r : Rec),
      (enrich_record fc ti lga (enrich_record fc ti lga r)).audience =
        (enrich_record fc ti lga r).audience ∧
      (enrich_record fc ti lga (enrich_record fc ti lga r)).discipline =
        (enrich_record fc ti lga r).discipline ∧
      (ensure_list (enrich_record fc ti lga r).audience).toFinset =
        (ensure_list r.audience).toFinset ∪
          (matchedTags AUDIENCE_RULES (blobOf r)).toFinset ∧
      (ensure_list (enrich_record fc ti lga r).discipline).toFinset =
        (ensure_list r.discipline).toFinset ∪
          (matchedTags DISC_RULES (blobOf r)).toFinset := by
  intro fc ti lga r
  refine ⟨?_, ?_, ?_, ?_⟩
  · rw [enrich_audience_eq fc ti lga (enrich_record fc ti lga r), blobOf_enrich,
      enrich_audience_eq fc ti lga r]
    have h := canon_append_canon (ensure_list r.audience) (matchedTags AUDIENCE_RULES (blobOf r))
    simp only [ensure_list] at h ⊢
    exact congrArg some h
  · rw [enrich_discipline_eq fc ti lga (enrich_record fc ti lga r), blobOf_enrich,
      enrich_discipline_eq fc ti lga r]
    have h := canon_append_canon (ensure_list r.discipline) (matchedTags DISC_RULES (blobOf r))
    simp only [ensure_list] at h ⊢
    exact congrArg some h
  · rw [enrich_audience_eq fc ti lga r]
    simp [ensure_list, toFinset_canon, List.toFinset_append]
  · rw [enrich_discipline_eq fc ti lga r]
    simp [ensure_list, toFinset_canon, List.toFinset_append]

/-- A record whose `type` was externally supplied as the empty string —
a non-null value. -/
def recEmptyType : Rec := { rtype := some "" }

/-- Counterexample to claim C9: enrichment overwrites an externally
supplied non-null `type` when that value is the empty string — Python's
`r.get("type") or guess_type(...)` treats every falsy value as absent, so
`some ""` becomes the inferred `some "grant"`. -/
theorem C9_counterexample :
    recEmptyType.rtype = some "" ∧
    recEmptyType.rtype ≠ none ∧
    (enrich_record (fun _ => none) "2025-06-01" "Wyndham" recEmptyType).rtype =
      some "grant" := by
  refine ⟨rfl, by decide, by decide⟩

/-- Claim C9 as amended: enrichment never overwrites an externally
supplied truthy (non-null, non-empty) value of a singular field (`type`,
`jurisdiction`, `lga`, `close_date`, `last_seen`) — a null or
empty-string value is treated as absent and may be filled by inference —
for `audience` and `discipline` it only unions inferred tags into the
existing set, and every other externally supplied field (`id`, `source`,
`url`, `title`, `description`, `agency`, `open_date`, `status`,
`amount_min`, `amount_max`) is left unchanged. -/
theorem C9_enrichment_preserves_supplied_values :
    ∀ (fc : String → Option String) (ti lga : String) (r : Rec),
      (strTruthy r.rtype = true → (enrich_record fc ti lga r).rtype = r.rtype) ∧
      (strTruthy r.jurisdiction = true →
        (enrich_record fc ti lga r).jurisdiction = r.jurisdiction) ∧
      (strTruthy r.lga = true → (enrich_record fc ti lga r).lga = r.lga) ∧
      (strTruthy r.close_date = true →
        (enrich_record fc ti lga r).close_date = r.close_date) ∧
      (strTruthy r.last_seen = true →
        (enrich_record fc ti lga r).last_seen = r.last_seen) ∧
      (ensure_list r.audience).toFinset ⊆
        (ensure_list (enrich_record fc ti lga r).audience).toFinset ∧
      (ensure_list (enrich_record fc ti lga r).audience).toFinset =
        (ensure_list r.audience).toFinset ∪
          (matchedTags AUDIENCE_RULES (blobOf r)).toFinset ∧
      (ensure_list r.discipline).toFinset ⊆
        (ensure_list (enrich_record fc ti lga r).discipline).toFinset ∧
      (ensure_list (enrich_record fc ti lga r).discipline).toFinset =
        (ensure_list r.discipline).toFinset ∪
          (matchedTags DISC_RULES (blobOf r)).toFinset ∧
      (enrich_record fc ti lga r).id = r.id ∧
      (enrich_record fc ti lga r).source = r.source ∧
      (enrich_record fc ti lga r).url = r.url ∧
      (enrich_record fc ti lga r).title = r.title ∧
      (enrich_record fc ti lga r).description = r.description ∧
      (enrich_record fc ti lga r).agency = r.agency ∧
      (enrich_record fc ti lga r).open_date = r.open_date ∧
      (enrich_record fc ti lga r).status = r.status ∧
      (enrich_record fc ti lga r).amount_min = r.amount_min ∧
      (enrich_record fc ti lga r).amount_max = r.amount_max := by
  intro fc ti lga r
  have hA : (ensure_list (enrich_record fc ti lga r).audience).toFinset =
      (ensure_list r.audience).toFinset ∪
        (matchedTags AUDIENCE_RULES (blobOf r)).toFinset := by
    rw [enrich_audience_eq fc ti lga r]
    simp [ensure_list, toFinset_canon, List.toFinset_append]
  have hD : (ensure_list (enrich_record fc ti lga r).discipline).toFinset =
      (ensure_list r.discipline).toFinset ∪
        (matchedTags DISC_RULES (blobOf r)).toFinset := by
    rw [enrich_discipline_eq fc ti lga r]
    simp [ensure_list, toFinset_canon, List.toFinset_append]
  refine ⟨fun h => by simp [enrich_record, h], fun h => by simp [enrich_record, h],
    fun h => by simp [enrich_record, h], fun h => by simp [enrich_record, h],
    fun h => by simp [enrich_record, h], ?_, hA, ?_, hD,
    rfl, rfl, rfl, rfl, rfl, rfl, rfl, rfl, rfl, rfl⟩
  · rw [hA]; exact Finset.subset_union_left
  · rw [hD]; exact Finset.subset_union_left

/-- A record with every singular field externally supplied and truthy. -/
def rFull : Rec :=
  { rtype := some "grant", jurisdiction := some "VIC", lga := some "Wyndham",
    close_date := some "2025-12-01", last_seen := some "2025-10-01",
    title := some "Arts Fund", description := some "support for local projects",
    url := some "https://example.vic.gov.au/a", audience := some ["community"],
    discipline := some ["arts"] }

/-- Witness for C9's amended theorem at a fully populated record. -/
theorem C9_witness :
    (enrich_record (fun _ => none) "2025-10-12" "Wyndham" rFull).rtype = rFull.rtype ∧
    (enrich_record (fun _ => none) "2025-10-12" "Wyndham" rFull).jurisdiction =
      rFull.jurisdiction ∧
    (enrich_record (fun _ => none) "2025-10-12" "Wyndham" rFull).lga = rFull.lga ∧
    (enrich_record (fun _ => none) "2025-10-12" "Wyndham" rFull).close_date =
      rFull.close_date ∧
    (enrich_record (fun _ => none) "2025-10-12" "Wyndham" rFull).last_seen =
      rFull.last_seen :=
  ⟨(C9_enrichment_preserves_supplied_values (fun _ => none) "2025-10-12" "Wyndham" rFull).1
      (by decide),
   (C9_enrichment_preserves_supplied_values (fun _ => none) "2025-10-12" "Wyndham"
      rFull).2.1 (by decide),
   (C9_enrichment_preserves_supplied_values (fun _ => none) "2025-10-12" "Wyndham"
      rFull).2.2.1 (by decide),
   (C9_enrichment_preserves_supplied_values (fun _ => none) "2025-10-12" "Wyndham"
      rFull).2.2.2.1 (by decide),
   (C9_enrichment_preserves_supplied_values (fun _ => none) "2025-10-12" "Wyndham"
      rFull).2.2.2.2.1 (by decide)⟩
